import Mathlib

/-!
Verification of the GPU query-pool subsystem of `vk_query.cpp` (Vulkan ICD
query pools).  The C++ source is shallowly embedded: caller-visible
destination memory is a byte-addressed map `Nat → Nat` (each cell a byte,
writes store little-endian), the pool's internal timestamp memory is a map
from byte offsets to the 64-bit word starting there (all source accesses are
8-byte aligned words), and machine casts appear as explicit `% 2 ^ 32` /
`% 2 ^ 64`.  External collaborators (the PAL backend, the memory manager)
enter as oracle parameters.
-/

namespace VkQuery

/-- Result codes returned by the query-pool paths of the source
(`VkResult` values that actually occur there). -/
inductive VkResult where
  | success
  | notReady
  | errorOutOfHostMemory
  | errorOutOfDeviceMemory
  | errorDeviceLost
  deriving DecidableEq, Repr

/-- The `VkQueryResultFlags` bits the source inspects:
`VK_QUERY_RESULT_64_BIT`, `..._WITH_AVAILABILITY_BIT`, `..._WAIT_BIT`,
`..._PARTIAL_BIT`. -/
structure QueryFlags where
  bits64 : Bool
  withAvailability : Bool
  waitBit : Bool
  partialBit : Bool
  deriving DecidableEq, Repr

/-! ### Byte-addressed destination memory -/

/-- Store one byte (`v` is masked to a byte, as a machine store does). -/
def writeByte (m : Nat → Nat) (off v : Nat) : Nat → Nat :=
  fun o => if o = off then v % 256 else m o

/-- Store `n` bytes of `v` little-endian at `off`: the embedding of a
`uint32_t`/`uint64_t` store through a pointer at byte offset `off`. -/
def writeLE (m : Nat → Nat) (off : Nat) : Nat → Nat → (Nat → Nat)
  | 0, _ => m
  | n + 1, v => writeLE (writeByte m off v) (off + 1) n (v / 256)

/-- Read `n` bytes little-endian starting at `off`. -/
def readLE (m : Nat → Nat) (off : Nat) : Nat → Nat
  | 0 => 0
  | n + 1 => m off + 256 * readLE m (off + 1) n

theorem writeByte_ne (m : Nat → Nat) (off v o : Nat) (h : o ≠ off) :
    writeByte m off v o = m o := by
  simp [writeByte, h]

theorem writeLE_frame (m : Nat → Nat) (off n v o : Nat)
    (h : o < off ∨ off + n ≤ o) : writeLE m off n v o = m o := by
  induction n generalizing m off v with
  | zero => rfl
  | succ k ih =>
    have hne : o ≠ off := by omega
    rw [writeLE, ih _ _ _ (by omega), writeByte_ne _ _ _ _ hne]

theorem readLE_congr (m₁ m₂ : Nat → Nat) (off n : Nat)
    (h : ∀ j < n, m₁ (off + j) = m₂ (off + j)) :
    readLE m₁ off n = readLE m₂ off n := by
  induction n generalizing off with
  | zero => rfl
  | succ k ih =>
    rw [readLE, readLE]
    have h0 : m₁ off = m₂ off := by simpa using h 0 (Nat.succ_pos k)
    rw [h0, ih (off + 1) (fun j hj => by
      have := h (j + 1) (by omega)
      have harr : off + (j + 1) = off + 1 + j := by omega
      rwa [harr] at this)]

theorem readLE_writeLE (m : Nat → Nat) (off n v : Nat) :
    readLE (writeLE m off n v) off n = v % 256 ^ n := by
  induction n generalizing m off v with
  | zero => simp [readLE, writeLE, Nat.mod_one]
  | succ k ih =>
    rw [writeLE, readLE]
    have hfr : writeLE (writeByte m off v) (off + 1) k (v / 256) off
        = writeByte m off v off :=
      writeLE_frame _ _ _ _ _ (Or.inl (Nat.lt_succ_self off))
    rw [hfr, ih]
    have hb : writeByte m off v off = v % 256 := by simp [writeByte]
    rw [hb]
    have hpow : (256 : Nat) ^ (k + 1) = 256 * 256 ^ k := by ring
    rw [hpow, Nat.mod_mul]

/-! ### Timestamp query pool (`TimestampQueryPool`) -/

/-- Modelled from the spec: the reserved not-ready sentinel marking a
pending/reset timestamp slot (`TimestampNotReady`; its defining header is
not among the provided sources).  Its concrete value (64-bit all-ones, "a
value a completed counter could never legitimately take") matters to no
claim — only that it is one fixed 64-bit value. -/
def TimestampNotReady : Nat := 2 ^ 64 - 1

/-- Bytes per query value written out: `sizeof(uint64_t)` with
`VK_QUERY_RESULT_64_BIT`, else `sizeof(uint32_t)` (line 546). -/
def queryValueSize (flags : QueryFlags) : Nat :=
  if flags.bits64 then 8 else 4

/-- Bytes written per query slot: doubled when availability is also
requested (line 547). -/
def querySlotSize (flags : QueryFlags) : Nat :=
  queryValueSize flags * (if flags.withAvailability then 2 else 1)

/-- The WAIT busy-poll of `TimestampQueryPool::GetResults` (lines 569-576)
over one static memory word, fuel-indexed: `none` models the re-read loop
not having returned within `fuel` reads. -/
def pollSlot (word : Nat) : Nat → Option Nat
  | 0 => none
  | fuel + 1 => if word ≠ TimestampNotReady then some word else pollSlot word fuel

/-- Observation of one slot (lines 564-576): the value read and its
readiness; with WAIT set the busy-poll runs (readiness is forced), without
it the single read decides readiness. -/
def tsObserve (flags : QueryFlags) (word fuel : Nat) : Option (Nat × Bool) :=
  if flags.waitBit then
    match pollSlot word fuel with
    | none => none
    | some v => some (v, true)
  else some (word, word != TimestampNotReady)

/-- The per-slot destination write (lines 578-610): the value only when
ready (truncated to 32 bits without `VK_QUERY_RESULT_64_BIT`), the
availability word (1/0) after it only when requested. -/
def tsWriteSlot (flags : QueryFlags) (dst : Nat → Nat) (base value : Nat)
    (ready : Bool) : Nat → Nat :=
  if flags.bits64 then
    let d1 := if ready then writeLE dst base 8 value else dst
    if flags.withAvailability then writeLE d1 (base + 8) 8 (if ready then 1 else 0) else d1
  else
    let d1 := if ready then writeLE dst base 4 (value % 2 ^ 32) else dst
    if flags.withAvailability then writeLE d1 (base + 4) 4 (if ready then 1 else 0) else d1

/-- The slot loop of `TimestampQueryPool::GetResults` (lines 556-614),
processing destination slots `[0, n)` in order.  Slot `i` reads the 64-bit
word at internal byte offset `(i + startQuery) * slotSize`, computed in
32-bit arithmetic as the source's `uint32_t srcSlotOffset` (line 558), and
writes at destination byte offset `i * stride`.  The `Option Bool` carries the
running `allReady`; `none` models the WAIT busy-poll never returning (the
destination then keeps exactly the writes made before the hang). -/
def tsLoop (flags : QueryFlags) (mem : Nat → Nat)
    (slotSize startQuery stride fuel : Nat) :
    Nat → (Nat → Nat) → Bool → ((Nat → Nat) × Option Bool)
  | 0, dst, allReady => (dst, some allReady)
  | n + 1, dst, allReady =>
    match tsLoop flags mem slotSize startQuery stride fuel n dst allReady with
    | (d, none) => (d, none)
    | (d, some ar) =>
      match tsObserve flags (mem ((n + startQuery) * slotSize % 2 ^ 32) % 2 ^ 64) fuel with
      | none => (d, none)
      | some (v, r) => (tsWriteSlot flags d (n * stride) v r, some (ar && r))

/-- The clamp of lines 552-553: number of slots actually examined/written.
The quotient passes through `static_cast<uint32_t>` before the `Min`. -/
def tsClampedCount (flags : QueryFlags) (queryCount dataSize stride : Nat) : Nat :=
  min queryCount (dataSize / max (querySlotSize flags) stride % 2 ^ 32)

/-- `TimestampQueryPool::GetResults` (lines 521-626).  `mem` is the pool's
internal memory (map from byte offset to the 64-bit word starting there;
the source reads only aligned words), `dst` the caller's byte-addressed
destination.  Returns the destination after the call and `some` result, or
`none` when the WAIT busy-poll never returns. -/
def tsGetResults (flags : QueryFlags) (mem : Nat → Nat)
    (slotSize startQuery queryCount dataSize stride fuel : Nat)
    (dst : Nat → Nat) : ((Nat → Nat) × Option VkResult) :=
  if queryCount = 0 then (dst, some .success)
  else
    let qc := tsClampedCount flags queryCount dataSize stride
    match tsLoop flags mem slotSize startQuery stride fuel qc dst true with
    | (d, none) => (d, none)
    | (d, some allReady) => (d, some (if allReady then .success else .notReady))

/-- Word store into the pool's internal memory (word-granular map from byte
offset to the 64-bit word starting there). -/
def writeWord (m : Nat → Nat) (off v : Nat) : Nat → Nat :=
  fun o => if o = off then v % 2 ^ 64 else m o

/-- The qword loop of `TimestampQueryPool::Reset` (lines 649-652): writes
`n` sentinel words starting at byte offset `base`. -/
def resetWords (base : Nat) : Nat → (Nat → Nat) → (Nat → Nat)
  | 0, m => m
  | k + 1, m => writeWord (resetWords base k m) (base + 8 * k) TimestampNotReady

/-- `TimestampQueryPool::Reset` (lines 630-661) on one replica whose
`Map` succeeded.  Both the word count (`uint32_t queryDataSize`, line 640,
a 32-bit product) and the base offset (`m_slotSize * startQuery`, line 647,
32-bit multiplication before the pointer increment) wrap mod `2^32`. -/
def tsResetMapped (slotSize entryCount startQuery queryCount : Nat)
    (m : Nat → Nat) : Nat → Nat :=
  if startQuery < entryCount then
    let qc := min queryCount (entryCount - startQuery)
    resetWords (slotSize * startQuery % 2 ^ 32) (slotSize * qc % 2 ^ 32 / 8) m
  else m

/-- `TimestampQueryPool::Reset` over the replica list: each replica is a
pair (did its `Map` succeed, its memory); replicas whose map fails are
silently skipped (lines 641-658). -/
def tsReset (slotSize entryCount startQuery queryCount : Nat) :
    List (Bool × (Nat → Nat)) → List (Bool × (Nat → Nat))
  | [] => []
  | (mapOk, m) :: rest =>
    (mapOk, if mapOk then tsResetMapped slotSize entryCount startQuery queryCount m else m)
      :: tsReset slotSize entryCount startQuery queryCount rest

/-! ### Hardware-delegating query pool (`PalQueryPool`): read-back -/

/-- Per-slot 64-bit element count the PAL backend reports for
transform-feedback queries: {needed, written}, plus availability when
requested (line 239). -/
def numXfbQueryDataElems (flags : QueryFlags) : Nat :=
  if flags.withAvailability then 3 else 2

/-- One record write of the transform-feedback reorder loop
(lines 271-310): `needVal`/`writeVal` is the PAL-order pair, stored
swapped to {written, needed}; availability, when requested, is stored as
the record's last element regardless of `writeValues`. -/
def xfbWriteSlot (flags : QueryFlags) (writeValues : Bool) (dst : Nat → Nat)
    (base needVal writeVal availVal : Nat) : Nat → Nat :=
  if flags.bits64 then
    let d1 := if writeValues then
        writeLE (writeLE dst base 8 writeVal) (base + 8) 8 needVal else dst
    if flags.withAvailability then writeLE d1 (base + 16) 8 availVal else d1
  else
    let d1 := if writeValues then
        writeLE (writeLE dst base 4 (writeVal % 2 ^ 32)) (base + 4) 4 (needVal % 2 ^ 32)
      else dst
    if flags.withAvailability then writeLE d1 (base + 8) 4 (availVal % 2 ^ 32) else d1

/-- The reorder loop over slots `[0, n)` (lines 271-310); slot `i`'s record
lands at destination byte offset `i * strideAct`, its PAL data sits at
scratch element indices `[i*e, i*e+e)`. -/
def xfbLoop (flags : QueryFlags) (writeValues : Bool) (xfbData : Nat → Nat)
    (strideAct : Nat) : Nat → (Nat → Nat) → (Nat → Nat)
  | 0, dst => dst
  | n + 1, dst =>
    let e := numXfbQueryDataElems flags
    xfbWriteSlot flags writeValues (xfbLoop flags writeValues xfbData strideAct n dst)
      (n * strideAct) (xfbData (n * e) % 2 ^ 64) (xfbData (n * e + 1) % 2 ^ 64)
      (xfbData (n * e + 2) % 2 ^ 64)

/-- `PalQueryPool::GetResults` (lines 214-315) for `m_queryType =
VK_QUERY_TYPE_TRANSFORM_FEEDBACK_STREAM_EXT`.  The backend call into the
scratch buffer is an oracle: `xfbData` is the scratch content after it
(64-bit elements, PAL order {needed, written, availability} per slot) and
`backendResult` its status mapped through `PalToVkResult`.  `dst` is the
caller's byte-addressed buffer.  `dataSize` is the caller's buffer
capacity: on this path the source consults it only in the debug-only
assert of line 227 (compiled out in release), so no computation below
depends on it. -/
def palGetResultsXfb (flags : QueryFlags) (backendResult : VkResult)
    (xfbData : Nat → Nat) (queryCount dataSize stride : Nat) (dst : Nat → Nat) :
    ((Nat → Nat) × VkResult) :=
  if queryCount = 0 then (dst, .success)
  else
    let queryDataStride := 8 * numXfbQueryDataElems flags
    if backendResult = .success ∨ backendResult = .notReady then
      let strideAct := if stride = 0 then queryDataStride else stride
      let writeValues := decide (backendResult = .success) || flags.partialBit
      (xfbLoop flags writeValues xfbData strideAct queryCount dst, backendResult)
    else (dst, backendResult)

/-! ### Public destroy entry point -/

/-- `vkDestroyQueryPool` (lines 688-700): the handle check guards the whole
body.  `dispatchDestroy` is the variant's `Destroy` (an oracle over the
driver's memory, returning the memory after it and the list of pool handles
it destroyed); the entry point dispatches it only for a non-null handle. -/
def vkDestroyQueryPool (dispatchDestroy : Nat → (Nat → Nat) → ((Nat → Nat) × List Nat))
    (queryPool : Option Nat) (mem : Nat → Nat) : ((Nat → Nat) × List Nat) :=
  match queryPool with
  | none => (mem, [])
  | some h => dispatchDestroy h mem

/-! ### Hardware-delegating query pool: creation (`PalQueryPool::Create`) -/

/-- The backend-construction loop of lines 127-137: constructs one backend
object per replica in ascending device index for as long as the previous
iterations succeeded (`palResult == Success` in the loop condition).
`backendRes k` is the oracle result of `CreateQueryPool` on device `k` (on
failure that output slot stays null).  Returns the list of replica indices
actually constructed and the final result. -/
def createBackends (backendRes : Nat → VkResult) : Nat → (List Nat × VkResult)
  | 0 => ([], .success)
  | n + 1 =>
    match createBackends backendRes n with
    | (created, .success) =>
      match backendRes n with
      | .success => (created ++ [n], .success)
      | e => (created, e)
    | r => r

/-- Resource ledger left behind by a `PalQueryPool::Create` call: which
backend objects were ever constructed and which were destroyed again,
whether the host block and the bound GPU memory are still held at return,
and the pool produced (carrying its replica objects), with the result. -/
structure PalCreateState where
  createdBackends : List Nat
  destroyedBackends : List Nat
  hostBlockAlive : Bool
  gpuMemAlive : Bool
  pool : Option (List Nat)
  result : VkResult
  deriving DecidableEq, Repr

/-- `PalQueryPool::Create` (lines 77-183).  Oracles: `hostAllocOk` for
`AllocApiObject`, `backendRes k` for the per-replica `CreateQueryPool`,
`gpuAllocRes` for `AllocAndBindGpuMem` (an external collaborator holding
nothing when it fails).  The failure branch (lines 167-180) destroys every
non-null backend object — exactly the constructed ones — and frees the
host block. -/
def palPoolCreate (numDevices : Nat) (hostAllocOk : Bool)
    (backendRes : Nat → VkResult) (gpuAllocRes : VkResult) : PalCreateState :=
  if !hostAllocOk then
    { createdBackends := [], destroyedBackends := [], hostBlockAlive := false,
      gpuMemAlive := false, pool := none, result := .errorOutOfHostMemory }
  else
    let cb := createBackends backendRes numDevices
    let res2 := if cb.2 = .success then gpuAllocRes else cb.2
    if res2 = .success then
      { createdBackends := cb.1, destroyedBackends := [], hostBlockAlive := true,
        gpuMemAlive := true, pool := some cb.1, result := .success }
    else
      { createdBackends := cb.1, destroyedBackends := cb.1, hostBlockAlive := false,
        gpuMemAlive := false, pool := none, result := res2 }

/-! ### Derived notions used by the statements -/

/-- The 64-bit word backing destination slot `i` (source slot
`i + startQuery`), as `TimestampQueryPool::GetResults` reads it: the byte
offset is the source's `uint32_t srcSlotOffset` (line 558), so the product
wraps mod `2^32`. -/
def slotWord (mem : Nat → Nat) (slotSize startQuery i : Nat) : Nat :=
  mem ((i + startQuery) * slotSize % 2 ^ 32) % 2 ^ 64

/-- Readiness of destination slot `i`: its word differs from the sentinel. -/
def slotReady (mem : Nat → Nat) (slotSize startQuery i : Nat) : Bool :=
  slotWord mem slotSize startQuery i != TimestampNotReady

/-- The `allReady` flag accumulated over destination slots `[0, n)`. -/
def allReadyBelow (mem : Nat → Nat) (slotSize startQuery : Nat) : Nat → Bool
  | 0 => true
  | n + 1 => allReadyBelow mem slotSize startQuery n && slotReady mem slotSize startQuery n

/-- Natural byte size of one slot's output record in the caller's requested
transform-feedback format: two counter values, a third availability value
when requested. -/
def xfbRecordSize (flags : QueryFlags) : Nat :=
  queryValueSize flags * numXfbQueryDataElems flags

/-! ### Lemmas: polling and observation -/

theorem pollSlot_none (word : Nat) (h : word = TimestampNotReady) :
    ∀ fuel, pollSlot word fuel = none := by
  subst h
  intro fuel
  induction fuel with
  | zero => rfl
  | succ k ih => simp [pollSlot, ih]

theorem pollSlot_pos (word fuel : Nat) (h : word ≠ TimestampNotReady) (hf : 0 < fuel) :
    pollSlot word fuel = some word := by
  cases fuel with
  | zero => omega
  | succ k => simp [pollSlot, h]

theorem pollSlot_some (word fuel v : Nat) (h : pollSlot word fuel = some v) :
    v = word ∧ word ≠ TimestampNotReady := by
  induction fuel with
  | zero => simp [pollSlot] at h
  | succ k ih =>
    rw [pollSlot] at h
    by_cases hw : word ≠ TimestampNotReady
    · simp [hw] at h; exact ⟨h.symm, hw⟩
    · simp [hw] at h; exact ih h

theorem tsObserve_nowait (flags : QueryFlags) (word fuel : Nat)
    (h : flags.waitBit = false) :
    tsObserve flags word fuel = some (word, word != TimestampNotReady) := by
  simp [tsObserve, h]

theorem tsObserve_some (flags : QueryFlags) (word fuel : Nat) (v : Nat) (r : Bool)
    (h : tsObserve flags word fuel = some (v, r)) :
    v = word ∧ r = (word != TimestampNotReady) := by
  rw [tsObserve] at h
  by_cases hw : flags.waitBit
  · rw [if_pos hw] at h
    cases hp : pollSlot word fuel with
    | none => rw [hp] at h; exact absurd h (by simp)
    | some u =>
      rw [hp] at h
      simp at h
      obtain ⟨h1, h2⟩ := pollSlot_some word fuel u hp
      obtain ⟨hv, hr⟩ := h
      refine ⟨by omega, ?_⟩
      rw [hr]
      simp [h2]
  · simp [hw] at h
    exact ⟨h.1.symm, h.2.symm⟩

theorem tsObserve_isSome_nowait (flags : QueryFlags) (word fuel : Nat)
    (h : flags.waitBit = false) : (tsObserve flags word fuel).isSome := by
  simp [tsObserve_nowait flags word fuel h]

/-! ### Lemmas: the per-slot destination write -/

theorem tsWriteSlot_frame (flags : QueryFlags) (d : Nat → Nat) (base v : Nat)
    (r : Bool) (o : Nat) (h : o < base ∨ base + querySlotSize flags ≤ o) :
    tsWriteSlot flags d base v r o = d o := by
  cases hb : flags.bits64 <;> cases hav : flags.withAvailability <;> cases r <;>
    simp [querySlotSize, queryValueSize, hb, hav, tsWriteSlot] at h ⊢ <;>
    repeat rw [writeLE_frame _ _ _ _ _ (by omega)]

/-- Value region untouched for a not-ready slot. -/
theorem tsWriteSlot_notReady_value (flags : QueryFlags) (d : Nat → Nat)
    (base v o : Nat) (ho1 : base ≤ o) (ho2 : o < base + queryValueSize flags) :
    tsWriteSlot flags d base v false o = d o := by
  cases hb : flags.bits64 <;> cases hav : flags.withAvailability <;>
    simp [queryValueSize, hb, hav, tsWriteSlot] at ho2 ⊢ <;>
    repeat rw [writeLE_frame _ _ _ _ _ (by omega)]

/-- The availability word written for a slot: 1 when ready, 0 otherwise. -/
theorem tsWriteSlot_avail_read (flags : QueryFlags) (d : Nat → Nat) (base v : Nat)
    (r : Bool) (hav : flags.withAvailability = true) :
    readLE (tsWriteSlot flags d base v r) (base + queryValueSize flags)
      (queryValueSize flags) = if r then 1 else 0 := by
  cases hb : flags.bits64 <;> cases r <;>
    simp [tsWriteSlot, queryValueSize, hb, hav] <;>
    rw [readLE_writeLE] <;> norm_num

/-- The value word written for a ready slot: the source value, reduced by
the output width (truncation to 32 bits when 64-bit width is not asked). -/
theorem tsWriteSlot_value_read (flags : QueryFlags) (d : Nat → Nat) (base v : Nat) :
    readLE (tsWriteSlot flags d base v true) base (queryValueSize flags)
      = v % 2 ^ (8 * queryValueSize flags) := by
  cases hb : flags.bits64 <;> cases hav : flags.withAvailability <;>
    simp [tsWriteSlot, queryValueSize, hb, hav]
  · rw [readLE_writeLE]; norm_num [Nat.mod_mod_of_dvd]
  · rw [readLE_congr _ (writeLE d base 4 (v % 4294967296)) _ _ (fun j hj => by
      rw [writeLE_frame _ _ _ _ _ (by omega)]), readLE_writeLE]
    norm_num [Nat.mod_mod_of_dvd]
  · rw [readLE_writeLE]; norm_num
  · rw [readLE_congr _ (writeLE d base 8 v) _ _ (fun j hj => by
      rw [writeLE_frame _ _ _ _ _ (by omega)]), readLE_writeLE]
    norm_num

/-- A byte store is a pointwise update: its value at `o` depends on the
underlying memory only through its value at `o`. -/
theorem writeByte_congr_point (m₁ m₂ : Nat → Nat) (off v o : Nat)
    (h : m₁ o = m₂ o) : writeByte m₁ off v o = writeByte m₂ off v o := by
  by_cases ho : o = off <;> simp [writeByte, ho, h]

theorem writeLE_congr_point (m₁ m₂ : Nat → Nat) (off n v o : Nat)
    (h : m₁ o = m₂ o) : writeLE m₁ off n v o = writeLE m₂ off n v o := by
  induction n generalizing m₁ m₂ off v with
  | zero => exact h
  | succ k ih =>
    rw [writeLE, writeLE]
    exact ih _ _ _ _ (writeByte_congr_point m₁ m₂ off v o h)

theorem tsWriteSlot_congr_point (flags : QueryFlags) (d₁ d₂ : Nat → Nat)
    (base v : Nat) (r : Bool) (o : Nat) (h : d₁ o = d₂ o) :
    tsWriteSlot flags d₁ base v r o = tsWriteSlot flags d₂ base v r o := by
  cases hb : flags.bits64 <;> cases hav : flags.withAvailability <;> cases r <;>
    simp [tsWriteSlot, hb, hav] <;>
    repeat' apply writeLE_congr_point
  all_goals exact h

/-! ### Lemmas: the timestamp slot loop -/

/-- Records of distinct slots are disjoint when the stride covers the
per-slot output size. -/
theorem slot_lt_disjoint (qss st i j : Nat) (hst : qss ≤ st) (hij : i < j) :
    i * st + qss ≤ j * st := by
  have h1 : (i + 1) * st ≤ j * st := Nat.mul_le_mul_right st hij
  have h2 : i * st + st = (i + 1) * st := by ring
  omega

theorem tsLoop_fst_frame (flags : QueryFlags) (mem : Nat → Nat)
    (ss sq st fuel : Nat) (n : Nat) (d : Nat → Nat) (a : Bool) (o : Nat)
    (h : ∀ i, i < n → o < i * st ∨ i * st + querySlotSize flags ≤ o) :
    (tsLoop flags mem ss sq st fuel n d a).1 o = d o := by
  induction n with
  | zero => rfl
  | succ m ih =>
    have ihm := ih (fun i hi => h i (by omega))
    rcases hsub : tsLoop flags mem ss sq st fuel m d a with ⟨dsub, arsub⟩
    rw [hsub] at ihm
    cases arsub with
    | none =>
      simp only [tsLoop]
      rw [hsub]
      exact ihm
    | some ar =>
      cases hobs : tsObserve flags (mem ((m + sq) * ss % 2 ^ 32) % 2 ^ 64) fuel with
      | none =>
        simp only [tsLoop]
        rw [hsub, hobs]
        exact ihm
      | some vr =>
        obtain ⟨v, r⟩ := vr
        simp only [tsLoop]
        rw [hsub, hobs]
        show tsWriteSlot flags dsub (m * st) v r o = d o
        rw [tsWriteSlot_frame _ _ _ _ _ _ (h m (Nat.lt_succ_self m))]
        exact ihm

theorem tsLoop_snd_nowait (flags : QueryFlags) (mem : Nat → Nat)
    (ss sq st fuel : Nat) (hwait : flags.waitBit = false) (n : Nat)
    (d : Nat → Nat) (a : Bool) :
    (tsLoop flags mem ss sq st fuel n d a).2
      = some (a && allReadyBelow mem ss sq n) := by
  induction n with
  | zero => simp [tsLoop, allReadyBelow]
  | succ m ih =>
    rcases hsub : tsLoop flags mem ss sq st fuel m d a with ⟨dsub, arsub⟩
    rw [hsub] at ih
    cases arsub with
    | none => simp at ih
    | some ar =>
      have har : ar = (a && allReadyBelow mem ss sq m) := Option.some.inj ih
      simp only [tsLoop]
      rw [hsub, tsObserve_nowait flags _ fuel hwait]
      show some (ar && (mem ((m + sq) * ss % 2 ^ 32) % 2 ^ 64 != TimestampNotReady))
        = some (a && allReadyBelow mem ss sq (m + 1))
      rw [har]
      simp [allReadyBelow, slotReady, slotWord, Bool.and_assoc]

theorem tsLoop_fuel_irrel_nowait (flags : QueryFlags) (mem : Nat → Nat)
    (ss sq st f₁ f₂ : Nat) (hwait : flags.waitBit = false) (n : Nat)
    (d : Nat → Nat) (a : Bool) :
    tsLoop flags mem ss sq st f₁ n d a = tsLoop flags mem ss sq st f₂ n d a := by
  induction n with
  | zero => rfl
  | succ m ih =>
    simp only [tsLoop]
    rw [ih]
    rcases hsub : tsLoop flags mem ss sq st f₂ m d a with ⟨dsub, arsub⟩
    cases arsub with
    | none => rfl
    | some ar =>
      rw [tsObserve_nowait flags _ f₁ hwait, tsObserve_nowait flags _ f₂ hwait]

theorem tsLoop_isSome_pred (flags : QueryFlags) (mem : Nat → Nat)
    (ss sq st fuel : Nat) (n : Nat) (d : Nat → Nat) (a : Bool)
    (h : (tsLoop flags mem ss sq st fuel (n + 1) d a).2.isSome) :
    (tsLoop flags mem ss sq st fuel n d a).2.isSome := by
  rcases hsub : tsLoop flags mem ss sq st fuel n d a with ⟨dsub, arsub⟩
  cases arsub with
  | none =>
    exfalso
    simp only [tsLoop] at h
    rw [hsub] at h
    simp at h
  | some ar => simp

/-- Step characterization: when the `(n+1)`-slot loop returns, its
destination is the `n`-slot loop's destination with slot `n`'s record
written over it, from slot `n`'s observed word and readiness. -/
theorem tsLoop_succ_fst (flags : QueryFlags) (mem : Nat → Nat)
    (ss sq st fuel : Nat) (n : Nat) (d : Nat → Nat) (a : Bool)
    (h : (tsLoop flags mem ss sq st fuel (n + 1) d a).2.isSome) :
    (tsLoop flags mem ss sq st fuel (n + 1) d a).1
      = tsWriteSlot flags (tsLoop flags mem ss sq st fuel n d a).1 (n * st)
          (slotWord mem ss sq n) (slotReady mem ss sq n) := by
  rcases hsub : tsLoop flags mem ss sq st fuel n d a with ⟨dsub, arsub⟩
  cases arsub with
  | none =>
    exfalso
    simp only [tsLoop] at h
    rw [hsub] at h
    simp at h
  | some ar =>
    cases hobs : tsObserve flags (mem ((n + sq) * ss % 2 ^ 32) % 2 ^ 64) fuel with
    | none =>
      exfalso
      simp only [tsLoop] at h
      rw [hsub, hobs] at h
      simp at h
    | some vr =>
      obtain ⟨v, r⟩ := vr
      obtain ⟨hv, hr⟩ := tsObserve_some flags _ fuel v r hobs
      simp only [tsLoop]
      rw [hsub, hobs]
      show tsWriteSlot flags dsub (n * st) v r
        = tsWriteSlot flags dsub (n * st) (slotWord mem ss sq n) (slotReady mem ss sq n)
      rw [hv, hr]
      rfl

theorem allReadyBelow_iff (mem : Nat → Nat) (ss sq n : Nat) :
    allReadyBelow mem ss sq n = true ↔ ∀ i, i < n → slotReady mem ss sq i = true := by
  induction n with
  | zero => simp [allReadyBelow]
  | succ m ih =>
    rw [allReadyBelow, Bool.and_eq_true, ih]
    constructor
    · rintro ⟨h1, h2⟩ i hi
      rcases Nat.lt_succ_iff_lt_or_eq.mp hi with h | h
      · exact h1 i h
      · subst h; exact h2
    · intro h
      exact ⟨fun i hi => h i (by omega), h m (by omega)⟩

theorem tsLoop_snd_wait_none (flags : QueryFlags) (mem : Nat → Nat)
    (ss sq st fuel : Nat) (n : Nat) (d : Nat → Nat) (a : Bool)
    (hwait : flags.waitBit = true)
    (hex : ∃ i, i < n ∧ slotReady mem ss sq i = false) :
    (tsLoop flags mem ss sq st fuel n d a).2 = none := by
  induction n with
  | zero => obtain ⟨i, hi, _⟩ := hex; omega
  | succ m ih =>
    rcases hsub : tsLoop flags mem ss sq st fuel m d a with ⟨dsub, arsub⟩
    cases arsub with
    | none =>
      simp only [tsLoop]
      rw [hsub]
    | some ar =>
      obtain ⟨i, hi, hr⟩ := hex
      by_cases him : i < m
      · have hnone := ih ⟨i, him, hr⟩
        rw [hsub] at hnone
        simp at hnone
      · have him' : i = m := by omega
        subst him'
        have hword : mem ((i + sq) * ss % 2 ^ 32) % 2 ^ 64 = TimestampNotReady := by
          have h' := hr
          simp [slotReady, slotWord] at h'
          exact h'
        simp only [tsLoop]
        rw [hsub, tsObserve, if_pos hwait, pollSlot_none _ hword fuel]

theorem tsLoop_snd_wait_ready (flags : QueryFlags) (mem : Nat → Nat)
    (ss sq st fuel : Nat) (n : Nat) (d : Nat → Nat) (a : Bool)
    (hwait : flags.waitBit = true) (hf : 0 < fuel)
    (hall : ∀ i, i < n → slotReady mem ss sq i = true) :
    (tsLoop flags mem ss sq st fuel n d a).2
      = some (a && allReadyBelow mem ss sq n) := by
  induction n with
  | zero => simp [tsLoop, allReadyBelow]
  | succ m ih =>
    rcases hsub : tsLoop flags mem ss sq st fuel m d a with ⟨dsub, arsub⟩
    have ihm := ih (fun i hi => hall i (by omega))
    rw [hsub] at ihm
    have hword : mem ((m + sq) * ss % 2 ^ 32) % 2 ^ 64 ≠ TimestampNotReady := by
      have h' := hall m (by omega)
      simp [slotReady, slotWord] at h'
      exact h'
    cases arsub with
    | none => simp at ihm
    | some ar =>
      have har : ar = (a && allReadyBelow mem ss sq m) := Option.some.inj ihm
      simp only [tsLoop]
      rw [hsub, tsObserve, if_pos hwait, pollSlot_pos _ fuel hword hf]
      show some (ar && true) = some (a && allReadyBelow mem ss sq (m + 1))
      have hm := hall m (by omega)
      rw [har]
      simp [allReadyBelow, hm, Bool.and_assoc]

/-- Landing: when the loop returns and distinct records do not overlap,
the bytes of slot `i`'s record are those of slot `i`'s write applied
directly over the original destination. -/
theorem tsLoop_fst_at_slot (flags : QueryFlags) (mem : Nat → Nat)
    (ss sq st fuel : Nat) (hst : querySlotSize flags ≤ st) (n i : Nat)
    (hi : i < n) (d : Nat → Nat) (a : Bool)
    (hsome : (tsLoop flags mem ss sq st fuel n d a).2.isSome)
    (o : Nat) (ho1 : i * st ≤ o) (ho2 : o < i * st + querySlotSize flags) :
    (tsLoop flags mem ss sq st fuel n d a).1 o
      = tsWriteSlot flags d (i * st) (slotWord mem ss sq i)
          (slotReady mem ss sq i) o := by
  induction n with
  | zero => omega
  | succ m ih =>
    rw [tsLoop_succ_fst flags mem ss sq st fuel m d a hsome]
    by_cases him : i = m
    · subst him
      apply tsWriteSlot_congr_point
      apply tsLoop_fst_frame
      intro j hj
      right
      calc j * st + querySlotSize flags ≤ i * st := slot_lt_disjoint _ _ _ _ hst hj
        _ ≤ o := ho1
    · have him' : i < m := by omega
      rw [tsWriteSlot_frame _ _ _ _ _ _ (Or.inl (by
        calc o < i * st + querySlotSize flags := ho2
          _ ≤ m * st := slot_lt_disjoint _ _ _ _ hst him'))]
      exact ih him' (tsLoop_isSome_pred flags mem ss sq st fuel m d a hsome)

/-! ### Lemmas: the transform-feedback reorder loop -/

theorem xfbWriteSlot_frame (flags : QueryFlags) (wv : Bool) (d : Nat → Nat)
    (base nv wvv av o : Nat) (h : o < base ∨ base + xfbRecordSize flags ≤ o) :
    xfbWriteSlot flags wv d base nv wvv av o = d o := by
  cases hb : flags.bits64 <;> cases hav : flags.withAvailability <;> cases wv <;>
    simp [xfbWriteSlot, xfbRecordSize, numXfbQueryDataElems, queryValueSize,
      hb, hav] at h ⊢ <;>
    repeat rw [writeLE_frame _ _ _ _ _ (by omega)]

theorem xfbWriteSlot_congr_point (flags : QueryFlags) (wv : Bool)
    (d₁ d₂ : Nat → Nat) (base nv wvv av o : Nat) (h : d₁ o = d₂ o) :
    xfbWriteSlot flags wv d₁ base nv wvv av o
      = xfbWriteSlot flags wv d₂ base nv wvv av o := by
  cases hb : flags.bits64 <;> cases hav : flags.withAvailability <;> cases wv <;>
    simp [xfbWriteSlot, hb, hav] <;>
    repeat' apply writeLE_congr_point
  all_goals exact h

theorem xfbLoop_frame (flags : QueryFlags) (wv : Bool) (xfbData : Nat → Nat)
    (sa : Nat) (n : Nat) (d : Nat → Nat) (o : Nat)
    (h : ∀ i, i < n → o < i * sa ∨ i * sa + xfbRecordSize flags ≤ o) :
    xfbLoop flags wv xfbData sa n d o = d o := by
  induction n with
  | zero => rfl
  | succ m ih =>
    simp only [xfbLoop]
    rw [xfbWriteSlot_frame _ _ _ _ _ _ _ _ (h m (Nat.lt_succ_self m))]
    exact ih (fun i hi => h i (by omega))

/-- Landing for the reorder loop: with non-overlapping records, slot `i`'s
record bytes are those of slot `i`'s write applied over the original
destination. -/
theorem xfbLoop_at_slot (flags : QueryFlags) (wv : Bool) (xfbData : Nat → Nat)
    (sa : Nat) (hst : xfbRecordSize flags ≤ sa) (n i : Nat) (hi : i < n)
    (d : Nat → Nat) (o : Nat) (ho1 : i * sa ≤ o)
    (ho2 : o < i * sa + xfbRecordSize flags) :
    xfbLoop flags wv xfbData sa n d o
      = xfbWriteSlot flags wv d (i * sa)
          (xfbData (i * numXfbQueryDataElems flags) % 2 ^ 64)
          (xfbData (i * numXfbQueryDataElems flags + 1) % 2 ^ 64)
          (xfbData (i * numXfbQueryDataElems flags + 2) % 2 ^ 64) o := by
  induction n with
  | zero => omega
  | succ m ih =>
    simp only [xfbLoop]
    by_cases him : i = m
    · subst him
      apply xfbWriteSlot_congr_point
      apply xfbLoop_frame
      intro j hj
      right
      calc j * sa + xfbRecordSize flags ≤ i * sa := slot_lt_disjoint _ _ _ _ hst hj
        _ ≤ o := ho1
    · have him' : i < m := by omega
      rw [xfbWriteSlot_frame _ _ _ _ _ _ _ _ (Or.inl (by
        calc o < i * sa + xfbRecordSize flags := ho2
          _ ≤ m * sa := slot_lt_disjoint _ _ _ _ hst him'))]
      exact ih him'

/-- The written-primitives count lands first in the record. -/
theorem xfbWriteSlot_read_written (flags : QueryFlags) (d : Nat → Nat)
    (base nv wvv av : Nat) :
    readLE (xfbWriteSlot flags true d base nv wvv av) base (queryValueSize flags)
      = wvv % 2 ^ (8 * queryValueSize flags) := by
  cases hb : flags.bits64 <;> cases hav : flags.withAvailability <;>
    simp [xfbWriteSlot, queryValueSize, hb, hav]
  · rw [readLE_congr _ (writeLE d base 4 (wvv % 4294967296)) _ _ (fun j hj => by
      rw [writeLE_frame _ _ _ _ _ (by omega)]), readLE_writeLE]
    norm_num [Nat.mod_mod_of_dvd]
  · rw [readLE_congr _ (writeLE d base 4 (wvv % 4294967296)) _ _ (fun j hj => by
      rw [writeLE_frame _ _ _ _ _ (by omega), writeLE_frame _ _ _ _ _ (by omega)]),
      readLE_writeLE]
    norm_num [Nat.mod_mod_of_dvd]
  · rw [readLE_congr _ (writeLE d base 8 wvv) _ _ (fun j hj => by
      rw [writeLE_frame _ _ _ _ _ (by omega)]), readLE_writeLE]
    norm_num
  · rw [readLE_congr _ (writeLE d base 8 wvv) _ _ (fun j hj => by
      rw [writeLE_frame _ _ _ _ _ (by omega), writeLE_frame _ _ _ _ _ (by omega)]),
      readLE_writeLE]
    norm_num

/-- The needed-primitives count lands second in the record. -/
theorem xfbWriteSlot_read_needed (flags : QueryFlags) (d : Nat → Nat)
    (base nv wvv av : Nat) :
    readLE (xfbWriteSlot flags true d base nv wvv av)
        (base + queryValueSize flags) (queryValueSize flags)
      = nv % 2 ^ (8 * queryValueSize flags) := by
  cases hb : flags.bits64 <;> cases hav : flags.withAvailability <;>
    simp [xfbWriteSlot, queryValueSize, hb, hav]
  · rw [readLE_writeLE]; norm_num [Nat.mod_mod_of_dvd]
  · rw [readLE_congr _ (writeLE (writeLE d base 4 (wvv % 4294967296)) (base + 4) 4
        (nv % 4294967296)) _ _ (fun j hj => by
      rw [writeLE_frame _ _ _ _ _ (by omega)]), readLE_writeLE]
    norm_num [Nat.mod_mod_of_dvd]
  · rw [readLE_writeLE]; norm_num
  · rw [readLE_congr _ (writeLE (writeLE d base 8 wvv) (base + 8) 8 nv) _ _
        (fun j hj => by rw [writeLE_frame _ _ _ _ _ (by omega)]), readLE_writeLE]
    norm_num

/-- The availability value lands last in the record (written regardless of
whether the counter values were). -/
theorem xfbWriteSlot_read_avail (flags : QueryFlags) (wv : Bool) (d : Nat → Nat)
    (base nv wvv av : Nat) (hav : flags.withAvailability = true) :
    readLE (xfbWriteSlot flags wv d base nv wvv av)
        (base + 2 * queryValueSize flags) (queryValueSize flags)
      = av % 2 ^ (8 * queryValueSize flags) := by
  cases hb : flags.bits64 <;> cases wv <;>
    simp [xfbWriteSlot, queryValueSize, hb, hav] <;>
    rw [readLE_writeLE] <;> norm_num [Nat.mod_mod_of_dvd]

/-! ### Lemmas: wrappers and remaining helpers -/

theorem querySlotSize_pos (flags : QueryFlags) : 0 < querySlotSize flags := by
  cases hb : flags.bits64 <;> cases hav : flags.withAvailability <;>
    simp [querySlotSize, queryValueSize, hb, hav]

theorem xfbRecordSize_le_scratch (flags : QueryFlags) :
    xfbRecordSize flags ≤ 8 * numXfbQueryDataElems flags := by
  cases hb : flags.bits64 <;> cases hav : flags.withAvailability <;>
    simp [xfbRecordSize, numXfbQueryDataElems, queryValueSize, hb, hav]

theorem xfbRecordSize_pos (flags : QueryFlags) : 0 < xfbRecordSize flags := by
  cases hb : flags.bits64 <;> cases hav : flags.withAvailability <;>
    simp [xfbRecordSize, numXfbQueryDataElems, queryValueSize, hb, hav]

theorem tsGetResults_fst (flags : QueryFlags) (mem : Nat → Nat)
    (ss sq qc ds st fuel : Nat) (dst : Nat → Nat) (hq : qc ≠ 0) :
    (tsGetResults flags mem ss sq qc ds st fuel dst).1
      = (tsLoop flags mem ss sq st fuel (tsClampedCount flags qc ds st) dst true).1 := by
  simp only [tsGetResults, if_neg hq]
  rcases h : tsLoop flags mem ss sq st fuel (tsClampedCount flags qc ds st) dst true
    with ⟨d, ar⟩
  cases ar <;> rfl

theorem tsGetResults_snd (flags : QueryFlags) (mem : Nat → Nat)
    (ss sq qc ds st fuel : Nat) (dst : Nat → Nat) (hq : qc ≠ 0) :
    (tsGetResults flags mem ss sq qc ds st fuel dst).2
      = Option.map (fun ar => if ar then VkResult.success else VkResult.notReady)
          (tsLoop flags mem ss sq st fuel (tsClampedCount flags qc ds st) dst true).2 := by
  simp only [tsGetResults, if_neg hq]
  rcases h : tsLoop flags mem ss sq st fuel (tsClampedCount flags qc ds st) dst true
    with ⟨d, ar⟩
  cases ar <;> rfl

theorem tsGetResults_snd_nowait (flags : QueryFlags) (mem : Nat → Nat)
    (ss sq qc ds st fuel : Nat) (dst : Nat → Nat) (hq : qc ≠ 0)
    (hwait : flags.waitBit = false) :
    (tsGetResults flags mem ss sq qc ds st fuel dst).2
      = some (if allReadyBelow mem ss sq (tsClampedCount flags qc ds st)
          then VkResult.success else VkResult.notReady) := by
  rw [tsGetResults_snd flags mem ss sq qc ds st fuel dst hq,
    tsLoop_snd_nowait flags mem ss sq st fuel hwait]
  simp

theorem palGetResultsXfb_success_fst (flags : QueryFlags) (xfbData : Nat → Nat)
    (qc ds st : Nat) (dst : Nat → Nat) (hq : qc ≠ 0) :
    (palGetResultsXfb flags .success xfbData qc ds st dst).1
      = xfbLoop flags true xfbData
          (if st = 0 then 8 * numXfbQueryDataElems flags else st) qc dst := by
  simp [palGetResultsXfb, hq]

theorem createBackends_all_ok (backendRes : Nat → VkResult) (n : Nat)
    (h : ∀ j, j < n → backendRes j = .success) :
    createBackends backendRes n = (List.range n, .success) := by
  induction n with
  | zero => rfl
  | succ m ih =>
    rw [createBackends, ih (fun j hj => h j (by omega)), h m (by omega)]
    simp [List.range_succ]

theorem createBackends_fail_at (backendRes : Nat → VkResult) (n k : Nat)
    (hk : k < n) (hbefore : ∀ j, j < k → backendRes j = .success)
    (hfail : backendRes k ≠ .success) :
    createBackends backendRes n = (List.range k, backendRes k) := by
  induction n with
  | zero => omega
  | succ m ih =>
    by_cases hkm : k < m
    · rw [createBackends, ih hkm]
      cases hres : backendRes k with
      | success => exact absurd hres hfail
      | notReady => rfl
      | errorOutOfHostMemory => rfl
      | errorOutOfDeviceMemory => rfl
      | errorDeviceLost => rfl
    · have hkm' : k = m := by omega
      subst hkm'
      rw [createBackends, createBackends_all_ok backendRes k hbefore]
      cases hres : backendRes k with
      | success => exact absurd hres hfail
      | notReady => rfl
      | errorOutOfHostMemory => rfl
      | errorOutOfDeviceMemory => rfl
      | errorDeviceLost => rfl

theorem resetWords_frame (base n : Nat) (m : Nat → Nat) (o : Nat)
    (h : ∀ k, k < n → o ≠ base + 8 * k) :
    resetWords base n m o = m o := by
  induction n with
  | zero => rfl
  | succ j ih =>
    rw [resetWords]
    rw [writeWord]
    simp only [if_neg (h j (Nat.lt_succ_self j))]
    exact ih (fun k hk => h k (by omega))

theorem resetWords_hit (base n k : Nat) (m : Nat → Nat) (hk : k < n) :
    resetWords base n m (base + 8 * k) = TimestampNotReady := by
  induction n with
  | zero => omega
  | succ j ih =>
    rw [resetWords, writeWord]
    by_cases hkj : k = j
    · subst hkj
      rw [if_pos rfl, Nat.mod_eq_of_lt (by decide)]
    · rw [if_neg (by omega)]
      exact ih (by omega)

/-! ## Claim theorems -/

/-- Claim C10 (confirmed): destroying a pool through `vkDestroyQueryPool`
with a null pool handle is a complete no-op — whatever the variant's
destroy would do, it is not dispatched, no resource is released, and the
driver's memory is untouched. -/
theorem vkDestroyQueryPool_null_noop :
    ∀ (dispatchDestroy : Nat → (Nat → Nat) → ((Nat → Nat) × List Nat))
      (mem : Nat → Nat),
      vkDestroyQueryPool dispatchDestroy none mem = (mem, []) :=
  fun _ _ => rfl

/-- Claim C1 (confirmed): `PalQueryPool::Create` is all-or-nothing.  If the
backend construction for replica `k` fails (all before it succeeding), the
call returns that error with exactly the replicas `[0, k)` constructed and
destroyed again, the host block freed and no GPU memory held; if all
constructions succeed but the GPU allocate-and-bind fails, all `N` backend
objects are destroyed and the host block freed; in every failing run no
pool is produced and nothing acquired survives. -/
theorem palPoolCreate_all_or_nothing (numDevices : Nat)
    (backendRes : Nat → VkResult) (gpuAllocRes : VkResult) :
    (∀ k, k < numDevices → (∀ j, j < k → backendRes j = .success) →
      backendRes k ≠ .success →
      palPoolCreate numDevices true backendRes gpuAllocRes =
        { createdBackends := List.range k, destroyedBackends := List.range k,
          hostBlockAlive := false, gpuMemAlive := false, pool := none,
          result := backendRes k }) ∧
    ((∀ j, j < numDevices → backendRes j = .success) → gpuAllocRes ≠ .success →
      palPoolCreate numDevices true backendRes gpuAllocRes =
        { createdBackends := List.range numDevices,
          destroyedBackends := List.range numDevices,
          hostBlockAlive := false, gpuMemAlive := false, pool := none,
          result := gpuAllocRes }) ∧
    (∀ hostAllocOk : Bool,
      (palPoolCreate numDevices hostAllocOk backendRes gpuAllocRes).result ≠ .success →
      (palPoolCreate numDevices hostAllocOk backendRes gpuAllocRes).pool = none ∧
      (palPoolCreate numDevices hostAllocOk backendRes gpuAllocRes).hostBlockAlive = false ∧
      (palPoolCreate numDevices hostAllocOk backendRes gpuAllocRes).gpuMemAlive = false ∧
      (palPoolCreate numDevices hostAllocOk backendRes gpuAllocRes).destroyedBackends
        = (palPoolCreate numDevices hostAllocOk backendRes gpuAllocRes).createdBackends) := by
  refine ⟨?_, ?_, ?_⟩
  · intro k hk hb hf
    simp only [palPoolCreate, Bool.not_true,
      createBackends_fail_at backendRes numDevices k hk hb hf]
    cases hres : backendRes k with
    | success => exact absurd hres hf
    | notReady => simp
    | errorOutOfHostMemory => simp
    | errorOutOfDeviceMemory => simp
    | errorDeviceLost => simp
  · intro hall hf
    simp only [palPoolCreate, Bool.not_true,
      createBackends_all_ok backendRes numDevices hall]
    simp [hf]
  · intro hostAllocOk hres
    cases hostAllocOk with
    | false =>
      refine ⟨rfl, rfl, rfl, rfl⟩
    | true =>
      rcases hcb : createBackends backendRes numDevices with ⟨created, res⟩
      by_cases h1 : res = .success <;> by_cases h2 : gpuAllocRes = .success <;>
        simp only [palPoolCreate, Bool.not_true, hcb, h1, h2] at hres ⊢ <;>
        simp_all

/-- Claim C1 witness: three devices, replica 1 failing out-of-memory — the
call destroys exactly replica 0, frees the host block and returns the
error with no pool. -/
theorem palPoolCreate_all_or_nothing_witness :
    palPoolCreate 3 true
        (fun k => if k = 1 then VkResult.errorOutOfHostMemory else VkResult.success)
        VkResult.success =
      { createdBackends := List.range 1, destroyedBackends := List.range 1,
        hostBlockAlive := false, gpuMemAlive := false, pool := none,
        result := (fun k => if k = 1 then VkResult.errorOutOfHostMemory
          else VkResult.success) 1 } :=
  (palPoolCreate_all_or_nothing 3
      (fun k => if k = 1 then VkResult.errorOutOfHostMemory else VkResult.success)
      VkResult.success).1 1 (by decide) (by decide) (by decide)

/-- Claim C5 counterexample: the reset's word count is the 32-bit product
`(m_slotSize * queryCount) / 8` (line 640).  For a slot size of 8 and
`entryCount = queryCount = 2^30` the product `2^33` wraps to 0, so the
program writes no sentinel word at all: slot 0's word keeps its prior
value 7, although the claim asserts every word of slots `[0, 2^30)` is
overwritten with the sentinel. -/
theorem tsResetMapped_wrap_cex :
    tsResetMapped 8 (2 ^ 30) 0 (2 ^ 30) (fun _ => 7) 0 = 7 ∧
    (7 : Nat) ≠ TimestampNotReady ∧ (0 : Nat) < 2 ^ 30 := by decide

/-- Claim C5 (amended): timestamp `Reset(startQuery, queryCount)`.  When
`startQuery < entryCount` it overwrites, on each replica whose map
succeeded, exactly the 64-bit words of slots
`[startQuery, startQuery + min(queryCount, entryCount − startQuery))` with
the not-ready sentinel, leaving every word outside that byte range
unchanged; when `startQuery ≥ entryCount` it is a no-op; replicas whose
map fails are skipped untouched.  Stated for pools with
`slotSize * entryCount < 2^32`, where the reset's 32-bit word-count and
base-offset products (lines 640, 647) do not wrap — creation itself sizes
the allocation with the same 32-bit product (line 391), so larger pools
are degenerate; see the counterexample for the wrapping case. -/
theorem tsReset_spec (slotSize entryCount startQuery queryCount : Nat)
    (h8 : 8 ∣ slotSize) (h32 : slotSize * entryCount < 2 ^ 32) :
    (∀ m : Nat → Nat, startQuery < entryCount →
      ((∀ s j, startQuery ≤ s →
          s < startQuery + min queryCount (entryCount - startQuery) →
          j < slotSize / 8 →
          tsResetMapped slotSize entryCount startQuery queryCount m
            (s * slotSize + 8 * j) = TimestampNotReady) ∧
        (∀ o, o < slotSize * startQuery ∨
            slotSize * (startQuery + min queryCount (entryCount - startQuery)) ≤ o →
          tsResetMapped slotSize entryCount startQuery queryCount m o = m o))) ∧
    (∀ m : Nat → Nat, entryCount ≤ startQuery →
      tsResetMapped slotSize entryCount startQuery queryCount m = m) ∧
    (∀ reps : List (Bool × (Nat → Nat)),
      tsReset slotSize entryCount startQuery queryCount reps
        = reps.map (fun rep => (rep.1,
            if rep.1 then tsResetMapped slotSize entryCount startQuery queryCount rep.2
            else rep.2))) := by
  obtain ⟨w, hw⟩ := h8
  have hq : slotSize * min queryCount (entryCount - startQuery) / 8
      = w * min queryCount (entryCount - startQuery) := by
    rw [hw, Nat.mul_assoc]
    exact Nat.mul_div_cancel_left _ (by norm_num)
  refine ⟨?_, ?_, ?_⟩
  · intro m hlt
    constructor
    · intro s j hs1 hs2 hj
      rw [tsResetMapped, if_pos hlt]
      have hb32 : slotSize * startQuery < 2 ^ 32 :=
        lt_of_le_of_lt (Nat.mul_le_mul_left slotSize (by omega)) h32
      have hc32 : slotSize * min queryCount (entryCount - startQuery) < 2 ^ 32 :=
        lt_of_le_of_lt (Nat.mul_le_mul_left slotSize (by omega)) h32
      rw [Nat.mod_eq_of_lt hb32, Nat.mod_eq_of_lt hc32]
      have hsw : slotSize / 8 = w := by omega
      rw [hsw] at hj
      have hs : startQuery + (s - startQuery) = s := by omega
      have hoff : s * slotSize + 8 * j
          = slotSize * startQuery + 8 * ((s - startQuery) * w + j) := by
        calc s * slotSize + 8 * j
            = (startQuery + (s - startQuery)) * slotSize + 8 * j := by rw [hs]
          _ = slotSize * startQuery + ((s - startQuery) * (8 * w) + 8 * j) := by
              rw [hw]; ring
          _ = slotSize * startQuery + 8 * ((s - startQuery) * w + j) := by ring
      rw [hoff]
      apply resetWords_hit
      rw [hq]
      have ha : s - startQuery < min queryCount (entryCount - startQuery) := by omega
      calc (s - startQuery) * w + j < (s - startQuery) * w + w := by omega
        _ = (s - startQuery + 1) * w := by ring
        _ ≤ min queryCount (entryCount - startQuery) * w :=
            Nat.mul_le_mul_right w (by omega)
        _ = w * min queryCount (entryCount - startQuery) := by ring
    · intro o ho
      rw [tsResetMapped, if_pos hlt]
      have hb32 : slotSize * startQuery < 2 ^ 32 :=
        lt_of_le_of_lt (Nat.mul_le_mul_left slotSize (by omega)) h32
      have hc32 : slotSize * min queryCount (entryCount - startQuery) < 2 ^ 32 :=
        lt_of_le_of_lt (Nat.mul_le_mul_left slotSize (by omega)) h32
      rw [Nat.mod_eq_of_lt hb32, Nat.mod_eq_of_lt hc32]
      apply resetWords_frame
      intro k hk
      rw [hq] at hk
      have h8k : 8 * k < slotSize * min queryCount (entryCount - startQuery) := by
        have hlt8 : 8 * k < 8 * (w * min queryCount (entryCount - startQuery)) := by
          omega
        calc 8 * k < 8 * (w * min queryCount (entryCount - startQuery)) := hlt8
          _ = slotSize * min queryCount (entryCount - startQuery) := by rw [hw]; ring
      have hdist : slotSize * (startQuery + min queryCount (entryCount - startQuery))
          = slotSize * startQuery
            + slotSize * min queryCount (entryCount - startQuery) := by ring
      omega
  · intro m hge
    funext o
    rw [tsResetMapped, if_neg (by omega)]
  · intro reps
    induction reps with
    | nil => rfl
    | cons hd tl ih =>
      rcases hd with ⟨ok, mm⟩
      rw [tsReset, ih]
      rfl

/-- Claim C5 witness: an 8-byte-slot pool with 4 entries, reset of slots
`[1, 4)`: the word of slot 1 becomes the sentinel and the word of slot 0
is untouched. -/
theorem tsReset_spec_witness :
    tsResetMapped 8 4 1 10 (fun _ => 7) 8 = TimestampNotReady ∧
    tsResetMapped 8 4 1 10 (fun _ => 7) 0 = 7 :=
  ⟨by
    have h := ((tsReset_spec 8 4 1 10 (by norm_num) (by norm_num)).1 (fun _ => 7)
      (by norm_num)).1 1 0 (by norm_num) (by norm_num) (by norm_num)
    simpa using h,
  by
    have h := ((tsReset_spec 8 4 1 10 (by norm_num) (by norm_num)).1 (fun _ => 7)
      (by norm_num)).2 0 (Or.inl (by norm_num))
    simpa using h⟩

/-- Claim C8 (confirmed): without WAIT, timestamp `GetResults` terminates
for every input and static memory state, with a result independent of the
poll budget (each word is read a bounded number of times); with WAIT set
over a static memory, it returns iff no examined slot holds the sentinel —
when one does, no poll budget suffices (the busy-poll never returns). -/
theorem tsGetResults_termination (flags : QueryFlags) (mem : Nat → Nat)
    (ss sq qc ds st : Nat) (dst : Nat → Nat) :
    (flags.waitBit = false →
      (∀ fuel, ((tsGetResults flags mem ss sq qc ds st fuel dst).2).isSome = true) ∧
      (∀ f₁ f₂, tsGetResults flags mem ss sq qc ds st f₁ dst
          = tsGetResults flags mem ss sq qc ds st f₂ dst)) ∧
    (flags.waitBit = true →
      (∃ i, i < tsClampedCount flags qc ds st ∧ slotReady mem ss sq i = false) →
      ∀ fuel, (tsGetResults flags mem ss sq qc ds st fuel dst).2 = none) ∧
    (flags.waitBit = true →
      (∀ i, i < tsClampedCount flags qc ds st → slotReady mem ss sq i = true) →
      ∀ fuel, 0 < fuel →
        ((tsGetResults flags mem ss sq qc ds st fuel dst).2).isSome = true) := by
  refine ⟨fun hwait => ⟨?_, ?_⟩, fun hwait hex fuel => ?_,
    fun hwait hall fuel hf => ?_⟩
  · intro fuel
    by_cases hq : qc = 0
    · simp [tsGetResults, hq]
    · rw [tsGetResults_snd_nowait flags mem ss sq qc ds st fuel dst hq hwait]
      rfl
  · intro f₁ f₂
    by_cases hq : qc = 0
    · simp [tsGetResults, hq]
    · simp only [tsGetResults, if_neg hq]
      rw [tsLoop_fuel_irrel_nowait flags mem ss sq st f₁ f₂ hwait]
  · by_cases hq : qc = 0
    · exfalso
      obtain ⟨i, hi, _⟩ := hex
      rw [tsClampedCount, hq] at hi
      omega
    · rw [tsGetResults_snd flags mem ss sq qc ds st fuel dst hq,
        tsLoop_snd_wait_none flags mem ss sq st fuel _ dst true hwait hex]
      rfl
  · by_cases hq : qc = 0
    · simp [tsGetResults, hq]
    · rw [tsGetResults_snd flags mem ss sq qc ds st fuel dst hq,
        tsLoop_snd_wait_ready flags mem ss sq st fuel _ dst true hwait hf hall]
      rfl

/-- Claim C8 witness: WAIT set over a one-slot pool whose word is the
sentinel and is never overwritten — the call never returns, whatever the
poll budget (here 3). -/
theorem tsGetResults_termination_witness :
    (tsGetResults ⟨false, false, true, false⟩ (fun _ => TimestampNotReady)
      8 0 1 8 8 3 (fun _ => 0)).2 = none :=
  (tsGetResults_termination ⟨false, false, true, false⟩
      (fun _ => TimestampNotReady) 8 0 1 8 8 (fun _ => 0)).2.1 rfl
    ⟨0, by decide, by decide⟩ 3

/-- Claim C3 counterexample: the hardware-delegating stream-output path of
`PalQueryPool::GetResults` writes beyond the caller's `dataSize`.  With
`queryCount = 1`, `stride = 0`, 64-bit width and `dataSize = 4`, the
reorder loop stores the 16-byte record {written, needed} at offsets
`[0, 16)` of an all-zero destination: byte offset 8 (which is `≥ dataSize`)
receives the needed-count's low byte, 100. -/
theorem palGetResultsXfb_writes_beyond_dataSize_cex :
    (palGetResultsXfb ⟨true, false, false, false⟩ VkResult.success
        (fun i => 100 + i) 1 4 0 (fun _ => 0)).1 8 = 100 ∧
    ¬ (8 : Nat) < 4 := by decide

/-- Claim C3 (amended): the timestamp variant never writes at any byte
offset at or beyond `dataSize`, for every combination of `queryCount`,
`stride` (0 included), flags (WAIT included) and poll budget — ensured by
clamping the slots written to `dataSize / max(perSlotOutputSize, stride)`;
the hardware-delegating stream-output path has no such clamp and can write
beyond `dataSize` (see the counterexample), relying on the caller's sizing
contract instead. -/
theorem tsGetResults_no_write_beyond (flags : QueryFlags) (mem : Nat → Nat)
    (ss sq qc ds st fuel : Nat) (dst : Nat → Nat) (o : Nat) (ho : ds ≤ o) :
    (tsGetResults flags mem ss sq qc ds st fuel dst).1 o = dst o := by
  by_cases hq : qc = 0
  · simp [tsGetResults, hq]
  · rw [tsGetResults_fst flags mem ss sq qc ds st fuel dst hq]
    apply tsLoop_fst_frame
    intro i hi
    right
    have hM2 : st ≤ max (querySlotSize flags) st := le_max_right _ _
    have hiq : i + 1 ≤ ds / max (querySlotSize flags) st := by
      rw [tsClampedCount] at hi
      have hmle : ds / max (querySlotSize flags) st % 2 ^ 32
          ≤ ds / max (querySlotSize flags) st := Nat.mod_le _ _
      omega
    calc i * st + querySlotSize flags
        ≤ i * max (querySlotSize flags) st + max (querySlotSize flags) st := by
          have hmul := Nat.mul_le_mul_left i hM2
          have hmax := le_max_left (querySlotSize flags) st
          omega
      _ = (i + 1) * max (querySlotSize flags) st := by ring
      _ ≤ (ds / max (querySlotSize flags) st) * max (querySlotSize flags) st :=
          Nat.mul_le_mul_right _ hiq
      _ ≤ ds := Nat.div_mul_le_self _ _
      _ ≤ o := ho

/-- Claim C3 witness: a two-slot read into a 4-byte buffer with stride 8
leaves the byte at offset 5 (beyond `dataSize = 4`) untouched. -/
theorem tsGetResults_no_write_beyond_witness :
    (tsGetResults ⟨false, false, false, false⟩ (fun _ => 7) 8 0 2 4 8 1
      (fun _ => 9)).1 5 = 9 :=
  tsGetResults_no_write_beyond ⟨false, false, false, false⟩ (fun _ => 7)
    8 0 2 4 8 1 (fun _ => 9) 5 (by norm_num)

theorem queryValueSize_le_slot (flags : QueryFlags) :
    queryValueSize flags ≤ querySlotSize flags := by
  cases hb : flags.bits64 <;> cases hav : flags.withAvailability <;>
    simp [querySlotSize, queryValueSize, hb, hav]

theorem querySlotSize_avail (flags : QueryFlags)
    (hav : flags.withAvailability = true) :
    querySlotSize flags = 2 * queryValueSize flags := by
  cases hb : flags.bits64 <;> simp [querySlotSize, queryValueSize, hb, hav]

/-- Claim C2 counterexample: the claim's per-slot guarantee fails as
universally stated because `stride = 0` makes all records alias.  Slot 0's
word is the sentinel, yet after the call its record's value bytes hold the
ready slot 1's counter (7), not their prior content (0). -/
theorem tsGetResults_sentinel_slot_cex :
    slotReady (fun o => if o = 0 then TimestampNotReady else 7) 8 0 0 = false ∧
    (tsGetResults ⟨false, false, false, false⟩
        (fun o => if o = 0 then TimestampNotReady else 7) 8 0 2 8 0 1
        (fun _ => 0)).1 0 = 7 ∧
    (tsGetResults ⟨false, false, false, false⟩
        (fun o => if o = 0 then TimestampNotReady else 7) 8 0 2 8 0 1
        (fun _ => 0)).2 = some VkResult.notReady := by decide

/-- Claim C2 (amended): for a timestamp `GetResults` with `queryCount > 0`
and WAIT clear, the call returns success iff every examined slot's word
differs from the sentinel, and otherwise the non-fatal not-ready status;
and — provided consecutive records do not alias (per-slot output size ≤
stride; with stride 0 a later ready slot may overwrite an earlier sentinel
slot's record, see the counterexample) — each sentinel slot's value bytes
stay unmodified while its availability word, if requested, is written 0. -/
theorem tsGetResults_nowait_spec (flags : QueryFlags) (mem : Nat → Nat)
    (ss sq qc ds st fuel : Nat) (dst : Nat → Nat)
    (hwait : flags.waitBit = false) (hqc : 0 < qc) :
    ((tsGetResults flags mem ss sq qc ds st fuel dst).2 = some VkResult.success
      ↔ ∀ i, i < tsClampedCount flags qc ds st → slotReady mem ss sq i = true) ∧
    ((tsGetResults flags mem ss sq qc ds st fuel dst).2 = some VkResult.success ∨
      (tsGetResults flags mem ss sq qc ds st fuel dst).2 = some VkResult.notReady) ∧
    (querySlotSize flags ≤ st →
      ∀ i, i < tsClampedCount flags qc ds st → slotReady mem ss sq i = false →
        (∀ o, i * st ≤ o → o < i * st + queryValueSize flags →
          (tsGetResults flags mem ss sq qc ds st fuel dst).1 o = dst o) ∧
        (flags.withAvailability = true →
          readLE (tsGetResults flags mem ss sq qc ds st fuel dst).1
            (i * st + queryValueSize flags) (queryValueSize flags) = 0)) := by
  have hq : qc ≠ 0 := by omega
  have hsnd := tsGetResults_snd_nowait flags mem ss sq qc ds st fuel dst hq hwait
  have hsome : (tsLoop flags mem ss sq st fuel
      (tsClampedCount flags qc ds st) dst true).2.isSome := by
    rw [tsLoop_snd_nowait flags mem ss sq st fuel hwait]
    rfl
  refine ⟨?_, ?_, ?_⟩
  · rw [hsnd, ← allReadyBelow_iff mem ss sq (tsClampedCount flags qc ds st)]
    by_cases har : allReadyBelow mem ss sq (tsClampedCount flags qc ds st) = true
    · simp [har]
    · rw [Bool.not_eq_true] at har
      simp [har]
  · rw [hsnd]
    by_cases har : allReadyBelow mem ss sq (tsClampedCount flags qc ds st) = true <;>
      simp [har]
  · intro hst i hi hready
    constructor
    · intro o ho1 ho2
      rw [tsGetResults_fst flags mem ss sq qc ds st fuel dst hq,
        tsLoop_fst_at_slot flags mem ss sq st fuel hst _ i hi dst true hsome o ho1
          (by have := queryValueSize_le_slot flags; omega),
        hready]
      exact tsWriteSlot_notReady_value flags dst (i * st) _ o ho1 ho2
    · intro hav
      have h2vs := querySlotSize_avail flags hav
      rw [tsGetResults_fst flags mem ss sq qc ds st fuel dst hq,
        readLE_congr _ (tsWriteSlot flags dst (i * st) (slotWord mem ss sq i)
            (slotReady mem ss sq i)) _ _ (fun j hj =>
          tsLoop_fst_at_slot flags mem ss sq st fuel hst _ i hi dst true hsome
            (i * st + queryValueSize flags + j) (by omega) (by omega)),
        hready, tsWriteSlot_avail_read flags dst (i * st) _ false hav]
      rfl

theorem two_queryValueSize_le_record (flags : QueryFlags) :
    2 * queryValueSize flags ≤ xfbRecordSize flags := by
  cases hb : flags.bits64 <;> cases hav : flags.withAvailability <;>
    simp [xfbRecordSize, numXfbQueryDataElems, queryValueSize, hb, hav]

theorem record_avail_three (flags : QueryFlags)
    (hav : flags.withAvailability = true) :
    xfbRecordSize flags = 3 * queryValueSize flags := by
  cases hb : flags.bits64 <;>
    simp [xfbRecordSize, numXfbQueryDataElems, queryValueSize, hb, hav]

/-- The three record reads of a slot after the reorder loop: written first,
needed second, availability last. -/
theorem xfbLoop_record_reads (flags : QueryFlags) (xfbData : Nat → Nat)
    (sa : Nat) (hrec : xfbRecordSize flags ≤ sa) (qc i : Nat) (hi : i < qc)
    (dst : Nat → Nat) :
    readLE (xfbLoop flags true xfbData sa qc dst) (i * sa) (queryValueSize flags)
      = xfbData (i * numXfbQueryDataElems flags + 1) % 2 ^ 64
          % 2 ^ (8 * queryValueSize flags) ∧
    readLE (xfbLoop flags true xfbData sa qc dst) (i * sa + queryValueSize flags)
        (queryValueSize flags)
      = xfbData (i * numXfbQueryDataElems flags) % 2 ^ 64
          % 2 ^ (8 * queryValueSize flags) ∧
    (flags.withAvailability = true →
      readLE (xfbLoop flags true xfbData sa qc dst)
          (i * sa + 2 * queryValueSize flags) (queryValueSize flags)
        = xfbData (i * numXfbQueryDataElems flags + 2) % 2 ^ 64
            % 2 ^ (8 * queryValueSize flags)) := by
  have h2vs := two_queryValueSize_le_record flags
  refine ⟨?_, ?_, fun hav => ?_⟩
  · rw [readLE_congr _ (xfbWriteSlot flags true dst (i * sa)
        (xfbData (i * numXfbQueryDataElems flags) % 2 ^ 64)
        (xfbData (i * numXfbQueryDataElems flags + 1) % 2 ^ 64)
        (xfbData (i * numXfbQueryDataElems flags + 2) % 2 ^ 64)) _ _
      (fun j hj => xfbLoop_at_slot flags true xfbData sa hrec qc i hi dst
        (i * sa + j) (by omega) (by omega))]
    exact xfbWriteSlot_read_written flags dst (i * sa) _ _ _
  · rw [readLE_congr _ (xfbWriteSlot flags true dst (i * sa)
        (xfbData (i * numXfbQueryDataElems flags) % 2 ^ 64)
        (xfbData (i * numXfbQueryDataElems flags + 1) % 2 ^ 64)
        (xfbData (i * numXfbQueryDataElems flags + 2) % 2 ^ 64)) _ _
      (fun j hj => xfbLoop_at_slot flags true xfbData sa hrec qc i hi dst
        (i * sa + queryValueSize flags + j) (by omega) (by omega))]
    exact xfbWriteSlot_read_needed flags dst (i * sa) _ _ _
  · have h3vs := record_avail_three flags hav
    rw [readLE_congr _ (xfbWriteSlot flags true dst (i * sa)
        (xfbData (i * numXfbQueryDataElems flags) % 2 ^ 64)
        (xfbData (i * numXfbQueryDataElems flags + 1) % 2 ^ 64)
        (xfbData (i * numXfbQueryDataElems flags + 2) % 2 ^ 64)) _ _
      (fun j hj => xfbLoop_at_slot flags true xfbData sa hrec qc i hi dst
        (i * sa + 2 * queryValueSize flags + j) (by omega) (by omega))]
    exact xfbWriteSlot_read_avail flags true dst (i * sa) _ _ _ hav

/-- Ready-slot value read through the whole timestamp loop. -/
theorem tsLoop_ready_value_read (flags : QueryFlags) (mem : Nat → Nat)
    (ss sq st fuel : Nat) (hst : querySlotSize flags ≤ st) (n i : Nat)
    (hi : i < n) (d : Nat → Nat) (a : Bool)
    (hsome : (tsLoop flags mem ss sq st fuel n d a).2.isSome)
    (hready : slotReady mem ss sq i = true) :
    readLE (tsLoop flags mem ss sq st fuel n d a).1 (i * st)
        (queryValueSize flags)
      = slotWord mem ss sq i % 2 ^ (8 * queryValueSize flags) := by
  have hvs := queryValueSize_le_slot flags
  rw [readLE_congr _ (tsWriteSlot flags d (i * st) (slotWord mem ss sq i)
      (slotReady mem ss sq i)) _ _ (fun j hj =>
    tsLoop_fst_at_slot flags mem ss sq st fuel hst n i hi d a hsome
      (i * st + j) (by omega) (by omega))]
  rw [hready]
  exact tsWriteSlot_value_read flags d (i * st) (slotWord mem ss sq i)

/-- Claim C4 (confirmed): for stream-output read-back, when the backend
reports the PAL-order pair {needed = N, written = W} for a slot (indices
`i*e` and `i*e+1` of the scratch), the caller's record receives (W, N) in
that order — and, when WITH-AVAILABILITY is requested, the availability
value as the record's last element.  `sa` is the effective stride (the
caller's, or the scratch stride when the caller passes 0). -/
theorem xfb_swap_order (flags : QueryFlags) (xfbData : Nat → Nat)
    (qc ds st sa : Nat) (dst : Nat → Nat)
    (hsa : sa = if st = 0 then 8 * numXfbQueryDataElems flags else st)
    (hst : st = 0 ∨ xfbRecordSize flags ≤ st) :
    ∀ i, i < qc →
      readLE (palGetResultsXfb flags .success xfbData qc ds st dst).1 (i * sa)
          (queryValueSize flags)
        = xfbData (i * numXfbQueryDataElems flags + 1) % 2 ^ 64
            % 2 ^ (8 * queryValueSize flags) ∧
      readLE (palGetResultsXfb flags .success xfbData qc ds st dst).1
          (i * sa + queryValueSize flags) (queryValueSize flags)
        = xfbData (i * numXfbQueryDataElems flags) % 2 ^ 64
            % 2 ^ (8 * queryValueSize flags) ∧
      (flags.withAvailability = true →
        readLE (palGetResultsXfb flags .success xfbData qc ds st dst).1
            (i * sa + 2 * queryValueSize flags) (queryValueSize flags)
          = xfbData (i * numXfbQueryDataElems flags + 2) % 2 ^ 64
              % 2 ^ (8 * queryValueSize flags)) := by
  intro i hi
  have hq : qc ≠ 0 := by omega
  have hrec : xfbRecordSize flags ≤ sa := by
    rcases hst with h0 | hle
    · rw [hsa, if_pos h0]
      exact xfbRecordSize_le_scratch flags
    · have hne : st ≠ 0 := by
        have := xfbRecordSize_pos flags
        omega
      rw [hsa, if_neg hne]
      exact hle
  rw [palGetResultsXfb_success_fst flags xfbData qc ds st dst hq, ← hsa]
  exact xfbLoop_record_reads flags xfbData sa hrec qc i hi dst

/-- Claim C4 witness: one slot, 64-bit width with availability, scratch
{needed = 100, written = 101, availability = 102}: the record reads back
written first. -/
theorem xfb_swap_order_witness :
    readLE (palGetResultsXfb ⟨true, true, false, false⟩ VkResult.success
        (fun i => 100 + i) 1 64 0 (fun _ => 0)).1 0 8 = 101 := by
  have h := (xfb_swap_order ⟨true, true, false, false⟩ (fun i => 100 + i)
      1 64 0 24 (fun _ => 0) rfl (Or.inl rfl) 0 (by norm_num)).1
  norm_num [queryValueSize] at h
  exact h

/-- Claim C6 (confirmed): without the 64-bit-width flag, a ready slot's
64-bit source value `v` is stored as `v mod 2^32` — wraparound by
truncation, never saturation, never an error — in both the timestamp
read-back and the stream-output read-back (where both counters of the
pair wrap the same way). -/
theorem width32_wraps (flags : QueryFlags) (mem xfbData : Nat → Nat)
    (ss sq qc ds st fuel xqc xds xst : Nat) (dst xdst : Nat → Nat)
    (hb : flags.bits64 = false) :
    (flags.waitBit = false → querySlotSize flags ≤ st →
      ∀ i, i < tsClampedCount flags qc ds st → slotReady mem ss sq i = true →
        readLE (tsGetResults flags mem ss sq qc ds st fuel dst).1 (i * st) 4
          = slotWord mem ss sq i % 2 ^ 32) ∧
    (xfbRecordSize flags ≤ xst → ∀ i, i < xqc →
      readLE (palGetResultsXfb flags .success xfbData xqc xds xst xdst).1
          (i * xst) 4
        = xfbData (i * numXfbQueryDataElems flags + 1) % 2 ^ 64 % 2 ^ 32 ∧
      readLE (palGetResultsXfb flags .success xfbData xqc xds xst xdst).1
          (i * xst + 4) 4
        = xfbData (i * numXfbQueryDataElems flags) % 2 ^ 64 % 2 ^ 32) := by
  have hvs : queryValueSize flags = 4 := by simp [queryValueSize, hb]
  constructor
  · intro hwait hst i hi hready
    have hq : qc ≠ 0 := by
      rw [tsClampedCount] at hi
      omega
    have hsome : (tsLoop flags mem ss sq st fuel
        (tsClampedCount flags qc ds st) dst true).2.isSome := by
      rw [tsLoop_snd_nowait flags mem ss sq st fuel hwait]
      rfl
    have h := tsLoop_ready_value_read flags mem ss sq st fuel hst
      (tsClampedCount flags qc ds st) i hi dst true hsome hready
    rw [hvs] at h
    rw [tsGetResults_fst flags mem ss sq qc ds st fuel dst hq]
    simpa using h
  · intro hxst i hi
    have hq : xqc ≠ 0 := by omega
    have hne : xst ≠ 0 := by
      have := xfbRecordSize_pos flags
      omega
    have h := xfbLoop_record_reads flags xfbData xst hxst xqc i hi xdst
    rw [hvs] at h
    rw [palGetResultsXfb_success_fst flags xfbData xqc xds xst xdst hq, if_neg hne]
    constructor
    · simpa using h.1
    · simpa using h.2.1

/-- Claim C6 witness: a timestamp slot holding `2^40 + 5` read back with
32-bit width yields 5 (= (2^40+5) mod 2^32). -/
theorem width32_wraps_witness :
    readLE (tsGetResults ⟨false, false, false, false⟩ (fun _ => 2 ^ 40 + 5)
        8 0 1 8 8 1 (fun _ => 0)).1 0 4 = 5 := by
  have h := (width32_wraps ⟨false, false, false, false⟩ (fun _ => 2 ^ 40 + 5)
      (fun _ => 7) 8 0 1 8 8 1 1 64 8 (fun _ => 0) (fun _ => 0) rfl).1
      rfl (by decide) 0 (by decide) (by decide)
  norm_num [slotWord] at h
  exact h

/-- Claim C7 counterexample: 32-bit stream-output read-back with
`stride = 0` and two slots.  The natural per-slot output size of the
requested format is 8 bytes (two 32-bit counters), so the claim predicts
slot 1's written-count (103) at byte offset 8 — but that offset still
holds the untouched destination (0): the pointer advanced by the 16-byte
64-bit scratch stride, landing slot 1's record at offset 16 instead. -/
theorem xfb_stride0_32bit_cex :
    xfbRecordSize ⟨false, false, false, false⟩ = 8 ∧
    readLE (palGetResultsXfb ⟨false, false, false, false⟩ VkResult.success
        (fun i => 100 + i) 2 64 0 (fun _ => 0)).1 8 4 = 0 ∧
    readLE (palGetResultsXfb ⟨false, false, false, false⟩ VkResult.success
        (fun i => 100 + i) 2 64 0 (fun _ => 0)).1 16 4 = 103 := by decide

/-- Claim C7 (amended): with `stride = 0` the hardware-delegating
stream-output read-back advances the destination between consecutive
records by the 64-bit scratch record stride, `8 × (2, or 3 with
availability)` bytes — which equals the natural per-slot output size of
the caller's requested format exactly when 64-bit width was requested,
and strictly exceeds it for 32-bit width. -/
theorem xfb_stride0_advance (flags : QueryFlags) (xfbData : Nat → Nat)
    (qc ds : Nat) (dst : Nat → Nat) :
    (∀ i, i < qc →
      readLE (palGetResultsXfb flags .success xfbData qc ds 0 dst).1
          (i * (8 * numXfbQueryDataElems flags)) (queryValueSize flags)
        = xfbData (i * numXfbQueryDataElems flags + 1) % 2 ^ 64
            % 2 ^ (8 * queryValueSize flags)) ∧
    (flags.bits64 = true →
      8 * numXfbQueryDataElems flags = xfbRecordSize flags) ∧
    (flags.bits64 = false →
      xfbRecordSize flags < 8 * numXfbQueryDataElems flags) := by
  refine ⟨fun i hi => ?_, fun hb => ?_, fun hb => ?_⟩
  · have hq : qc ≠ 0 := by omega
    rw [palGetResultsXfb_success_fst flags xfbData qc ds 0 dst hq, if_pos rfl]
    exact (xfbLoop_record_reads flags xfbData (8 * numXfbQueryDataElems flags)
      (xfbRecordSize_le_scratch flags) qc i hi dst).1
  · cases hav : flags.withAvailability <;>
      simp [xfbRecordSize, numXfbQueryDataElems, queryValueSize, hb, hav]
  · cases hav : flags.withAvailability <;>
      simp [xfbRecordSize, numXfbQueryDataElems, queryValueSize, hb, hav]

/-- Claim C9 (confirmed): in the timestamp variant a zero stride is kept:
the clamp divides by `max(perSlotOutputSize, 0) = perSlotOutputSize` (the
quotient then passing the source's uint32 cast of line 553), every
examined slot's record is written at destination offset 0 (nothing at or
beyond `perSlotOutputSize` changes), and after the call the first record
holds the last examined slot's data — its value (when that slot is ready)
and availability 1 if requested. -/
theorem tsGetResults_stride0 (flags : QueryFlags) (mem : Nat → Nat)
    (ss sq qc ds fuel : Nat) (dst : Nat → Nat)
    (hwait : flags.waitBit = false) :
    (tsClampedCount flags qc ds 0 = min qc (ds / querySlotSize flags % 2 ^ 32)) ∧
    (∀ o, querySlotSize flags ≤ o →
      (tsGetResults flags mem ss sq qc ds 0 fuel dst).1 o = dst o) ∧
    (0 < tsClampedCount flags qc ds 0 →
      slotReady mem ss sq (tsClampedCount flags qc ds 0 - 1) = true →
      readLE (tsGetResults flags mem ss sq qc ds 0 fuel dst).1 0
          (queryValueSize flags)
        = slotWord mem ss sq (tsClampedCount flags qc ds 0 - 1)
            % 2 ^ (8 * queryValueSize flags) ∧
      (flags.withAvailability = true →
        readLE (tsGetResults flags mem ss sq qc ds 0 fuel dst).1
          (queryValueSize flags) (queryValueSize flags) = 1)) := by
  refine ⟨by rw [tsClampedCount, Nat.max_zero], ?_, ?_⟩
  · intro o ho
    by_cases hq : qc = 0
    · simp [tsGetResults, hq]
    · rw [tsGetResults_fst flags mem ss sq qc ds 0 fuel dst hq]
      apply tsLoop_fst_frame
      intro i hi
      right
      omega
  · intro hn hlast
    have hq : qc ≠ 0 := by
      intro h
      rw [tsClampedCount, h] at hn
      simp at hn
    obtain ⟨m, hm⟩ : ∃ m, tsClampedCount flags qc ds 0 = m + 1 :=
      ⟨tsClampedCount flags qc ds 0 - 1, by omega⟩
    have hsome : (tsLoop flags mem ss sq 0 fuel
        (tsClampedCount flags qc ds 0) dst true).2.isSome := by
      rw [tsLoop_snd_nowait flags mem ss sq 0 fuel hwait]
      rfl
    rw [tsGetResults_fst flags mem ss sq qc ds 0 fuel dst hq]
    rw [hm] at hsome hlast ⊢
    simp only [Nat.add_sub_cancel] at hlast ⊢
    rw [tsLoop_succ_fst flags mem ss sq 0 fuel m dst true hsome, hlast,
      Nat.mul_zero]
    constructor
    · exact tsWriteSlot_value_read flags _ 0 (slotWord mem ss sq m)
    · intro hav
      have h := tsWriteSlot_avail_read flags
        (tsLoop flags mem ss sq 0 fuel m dst true).1 0 (slotWord mem ss sq m)
        true hav
      simpa using h

/-- Claim C9 witness: two 32-bit+availability records into stride 0 — the
destination's single record holds the last slot's value 9 and
availability 1. -/
theorem tsGetResults_stride0_witness :
    readLE (tsGetResults ⟨false, true, false, false⟩
        (fun o => if o = 0 then 5 else 9) 8 0 2 16 0 1 (fun _ => 0)).1 0 4 = 9 ∧
    readLE (tsGetResults ⟨false, true, false, false⟩
        (fun o => if o = 0 then 5 else 9) 8 0 2 16 0 1 (fun _ => 0)).1 4 4 = 1 := by
  have h := (tsGetResults_stride0 ⟨false, true, false, false⟩
      (fun o => if o = 0 then 5 else 9) 8 0 2 16 1 (fun _ => 0) rfl).2.2
      (by decide) (by decide)
  have h1 := h.1
  have h2 := h.2 rfl
  norm_num [tsClampedCount, querySlotSize, queryValueSize, slotWord] at h1 h2
  exact ⟨h1, h2⟩

/-- Claim C2 witness: a freshly-reset (all-sentinel) one-slot pool read
with availability and stride 8: the availability word is written 0. -/
theorem tsGetResults_nowait_spec_witness :
    readLE (tsGetResults ⟨false, true, false, false⟩ (fun _ => TimestampNotReady)
        8 0 1 8 8 1 (fun _ => 0)).1 4 4 = 0 := by
  have h := ((tsGetResults_nowait_spec ⟨false, true, false, false⟩
      (fun _ => TimestampNotReady) 8 0 1 8 8 1 (fun _ => 0) rfl
      (by norm_num)).2.2 (by decide) 0 (by decide) (by decide)).2 rfl
  norm_num [queryValueSize] at h
  exact h
